import Mathlib

/-!
Shallow embedding of the sectionalize unit
(`include/boost/geometry/algorithms/detail/sections/sectionalize.hpp`).

Points are lists of integer coordinates; a point's list length is its full
dimensionality, and the first `D` entries are the tracked dimensions
(template parameter `DimensionCount`).  The tolerance-aware coordinate
equality `geometry::math::equals` is an external collaborator of the unit
and is kept abstract as a parameter `eqls`; `math_equals` is its exact
instance for integer coordinates.  The box-union primitive
(`geometry::combine`) and the inverted sentinel box (`assign_inverse`)
are likewise external and are modelled with an `Option` box.
-/

abbrev Coord : Type := Int

abbrev Point : Type := List Coord

/-- One step of `get_direction_loop`:
`diff > zero ? 1 : diff < zero ? -1 : 0`. -/
def directionClass (diff : Coord) : Int :=
  if 0 < diff then 1 else if diff < 0 then -1 else 0

/-- `get_direction_loop`: the per-dimension sign of `end - start` over the
tracked dimensions `0 .. D-1`. -/
def get_direction_loop (D : Nat) (p q : Point) : List Int :=
  (List.range D).map fun d => directionClass (q.getD d 0 - p.getD d 0)

/-- Modelled from the spec: `geometry::math::equals`, the tolerance-aware
coordinate equality (`boost/geometry/util/math.hpp`, not part of this
unit); for the exact integer coordinates of this embedding it is plain
equality. -/
def math_equals (a b : Coord) : Bool := a == b

/-- `check_duplicate_loop`: every coordinate difference of the segment is
zero under the supplied equality, across the full point dimensionality
`dim` (which may exceed the tracked dimension count). -/
def check_duplicate_loop (eqls : Coord → Coord → Bool) (dim : Nat)
    (p q : Point) : Bool :=
  (List.range dim).all fun d => eqls (q.getD d 0 - p.getD d 0) 0

/-- The `section` struct (capitalised: `section` is a Lean keyword). -/
structure Section where
  id : Int := -1
  directions : List Int := []
  ring_index : Int := -99
  multi_index : Int := -99
  bounding_box : Option (Point × Point) := none
  begin_index : Int := -1
  end_index : Int := -1
  count : Nat := 0
  range_count : Nat := 0
  duplicate : Bool := false
  non_duplicate_index : Int := -1
deriving DecidableEq, Repr

instance : Inhabited Section := ⟨{}⟩

/-- The default-constructed `section()`: all fields at their initial
values, the bounding box at the inverted sentinel, and `DimensionCount`
direction entries initialised to `0`. -/
def sectionDefault (D : Nat) : Section :=
  { directions := List.replicate D 0 }

/-- Modelled from the spec: the box-union primitive
`geometry::combine(box, point)` (`boost/geometry/algorithms/combine.hpp`,
not part of this unit) together with the inverted/empty sentinel box
(`assign_inverse`), modelled as `none`: the first union defines the box,
later unions widen each minimum and maximum coordinate. -/
def combine : Option (Point × Point) → Point → Option (Point × Point)
  | none, p => some (p, p)
  | some (lo, hi), p => some (lo.zipWith min p, hi.zipWith max p)

/-- Pointwise `≤` on the common prefix of two coordinate lists. -/
def pointLe : Point → Point → Bool
  | [], _ => true
  | _ :: _, [] => true
  | a :: as, b :: bs => decide (a ≤ b) && pointLe as bs

/-- Membership of a point in a (possibly sentinel) box. -/
def inBox : Option (Point × Point) → Point → Bool
  | none, _ => false
  | some (lo, hi), p => pointLe lo p && pointLe p hi

/-- The per-segment duplicate flag of the builder loop: the duplicate
detector runs only when the classified sign of dimension 0 is `0`, and
then checks the full point dimensionality. -/
def seg_duplicate (eqls : Coord → Coord → Bool) (D fullDim : Nat)
    (p q : Point) : Bool :=
  ((get_direction_loop D p q).headD 0 == 0)
    && check_duplicate_loop eqls fullDim p q

/-- The per-segment direction vector actually used by the builder: the
classified signs, overwritten with the sentinel `-99` in every tracked
dimension when the segment is a duplicate (`assign_loop`). -/
def seg_directions (eqls : Coord → Coord → Bool) (D fullDim : Nat)
    (p q : Point) : List Int :=
  if seg_duplicate eqls D fullDim p q then List.replicate D (-99)
  else get_direction_loop D p q

/-- The mutable state threaded through `sectionalize_part::apply`:
the growing collection, the in-progress section, the segment index
cursor and the non-duplicate counter `ndi`. -/
structure BuilderState where
  sections : List Section
  sec : Section
  index : Nat
  ndi : Int
deriving DecidableEq, Repr

/-- One iteration of the loop body of `sectionalize_part::apply` for the
segment `(prev, cur)`: classify the direction, detect a duplicate, flush
the in-progress section when it is non-empty and the direction vector
differs or its count already exceeds `MaxCount`, start a fresh run when
the section is empty, then append the segment. -/
def sectionalize_step (eqls : Coord → Coord → Bool)
    (D fullDim maxCount : Nat) (ring_index multi_index : Int)
    (range_count : Nat) (prev cur : Point) (st : BuilderState) :
    BuilderState :=
  let duplicate := seg_duplicate eqls D fullDim prev cur
  let direction_classes := seg_directions eqls D fullDim prev cur
  let st1 :=
    if 0 < st.sec.count ∧
        (direction_classes ≠ st.sec.directions ∨ maxCount < st.sec.count)
    then { st with sections := st.sections ++ [st.sec],
                   sec := sectionDefault D }
    else st
  let sec1 :=
    if st1.sec.count = 0 then
      { st1.sec with
          begin_index := (st.index : Int)
          ring_index := ring_index
          multi_index := multi_index
          duplicate := duplicate
          non_duplicate_index := st.ndi
          range_count := range_count
          directions := direction_classes
          bounding_box := combine st1.sec.bounding_box prev }
    else st1.sec
  { sections := st1.sections
    sec := { sec1 with
              bounding_box := combine sec1.bounding_box cur
              end_index := (st.index : Int) + 1
              count := sec1.count + 1 }
    index := st.index + 1
    ndi := if duplicate then st.ndi else st.ndi + 1 }

/-- `sectionalize_part::apply`: guard against an exhausted cursor, reset
`ndi` at the start of a range, and run the loop body over the remaining
consecutive point pairs of the range. -/
def sectionalize_part (eqls : Coord → Coord → Bool)
    (D fullDim maxCount : Nat) (ring_index multi_index : Int)
    (range : List Point) (st : BuilderState) : BuilderState :=
  if range.length ≤ st.index then st
  else
    let st := if st.index = 0 then { st with ndi := 0 } else st
    ((range.zip range.tail).drop st.index).foldl
      (fun s pq =>
        sectionalize_step eqls D fullDim maxCount ring_index multi_index
          range.length pq.1 pq.2 s)
      st

/-- The closure policy of a range (`closure_selector`). -/
inductive ClosureSelector where
  | closed
  | open'
deriving DecidableEq, Repr

/-- Modelled from the spec: the closed-view adapter
(`boost/geometry/util/closeable_view.hpp`, not part of this unit): for
`closed` closure the range itself; for `open` closure the first point is
virtually repeated at the end. -/
def closeable_view : ClosureSelector → List Point → List Point
  | .closed, pts => pts
  | .open', [] => []
  | .open', p :: rest => p :: rest ++ [p]

/-- `sectionalize_range::apply`: build the closed view, return no
sections when the view has zero or one point, otherwise run the section
builder from index 0 and push the final in-progress section if it is
non-empty. -/
def sectionalize_range (eqls : Coord → Coord → Bool)
    (D fullDim maxCount : Nat) (closure : ClosureSelector)
    (range : List Point) (ring_index multi_index : Int) : List Section :=
  let view := closeable_view closure range
  let n := view.length
  if n = 0 then []
  else if n = 1 then []
  else
    let st : BuilderState :=
      { sections := [], sec := sectionDefault D, index := 0, ndi := 0 }
    let st := sectionalize_part eqls D fullDim maxCount ring_index
                multi_index view st
    if 0 < st.sec.count then st.sections ++ [st.sec] else st.sections

/-- `sectionalize_polygon::apply`: the exterior ring with
`ring_index = -1`, then the interior rings with `ring_index = 0, 1, 2, …`
in boundary order; `multi_index` is passed through unchanged. -/
def sectionalize_polygon (eqls : Coord → Coord → Bool)
    (D fullDim maxCount : Nat) (closure : ClosureSelector)
    (exterior : List Point) (interiors : List (List Point))
    (multi_index : Int) : List Section :=
  sectionalize_range eqls D fullDim maxCount closure exterior (-1)
      multi_index
    ++ (interiors.enum.map fun ir =>
          sectionalize_range eqls D fullDim maxCount closure ir.2
            (ir.1 : Int) multi_index).flatten

/-- A 2-dimensional axis-aligned box. -/
structure Box2 where
  min_x : Int
  min_y : Int
  max_x : Int
  max_y : Int
deriving DecidableEq, Repr

/-- Modelled from the spec: `assign_box_corners`
(`boost/geometry/algorithms/assign.hpp`, not part of this unit): the
lower-left, lower-right, upper-left and upper-right corners of a box. -/
def assign_box_corners (b : Box2) : Point × Point × Point × Point :=
  ([b.min_x, b.min_y], [b.max_x, b.min_y],
   [b.min_x, b.max_y], [b.max_x, b.max_y])

/-- `sectionalize_box::apply`: synthesize the closed 5-point ring
`ll, ul, ur, lr, ll` from the box corners and route it through the range
sectionizer with the default `ring_index = -1`, `multi_index = -1`. -/
def sectionalize_box (eqls : Coord → Coord → Bool) (D maxCount : Nat)
    (box : Box2) : List Section :=
  let c := assign_box_corners box
  let ll := c.1
  let lr := c.2.1
  let ul := c.2.2.1
  let ur := c.2.2.2
  let points : List Point := [ll, ul, ur, lr, ll]
  sectionalize_range eqls D 2 maxCount .closed points (-1) (-1)

/-- `set_section_unique_ids`: assign `id = 0, 1, 2, …` in output order. -/
def set_section_unique_ids (sections : List Section) : List Section :=
  sections.enum.map fun is => { is.2 with id := (is.1 : Int) }

/-- The closed set of geometry kinds handled by the dispatcher. -/
inductive Geometry where
  | box : Box2 → Geometry
  | linestring : List Point → Geometry
  | ring : ClosureSelector → List Point → Geometry
  | polygon : ClosureSelector → List Point → List (List Point) → Geometry
deriving Repr

/-- The `dispatch::sectionalize` specialisations: box, linestring
(always a closed view), ring (its own closure), polygon. -/
def dispatch_sectionalize (eqls : Coord → Coord → Bool)
    (D fullDim maxCount : Nat) : Geometry → List Section
  | .box b => sectionalize_box eqls D maxCount b
  | .linestring ls =>
      sectionalize_range eqls D fullDim maxCount .closed ls (-1) (-1)
  | .ring c r => sectionalize_range eqls D fullDim maxCount c r (-1) (-1)
  | .polygon c ext ints =>
      sectionalize_polygon eqls D fullDim maxCount c ext ints (-1)

/-- `max_segments_per_section`: a maximum of 10 segments per section. -/
def max_segments_per_section : Nat := 10

/-- The public `sectionalize` entry point: clear the caller's collection
(the previous contents are discarded), dispatch on the geometry kind,
then assign unique ids. -/
def sectionalize (eqls : Coord → Coord → Bool) (D fullDim : Nat)
    (geometry : Geometry) (_sections : List Section) : List Section :=
  set_section_unique_ids
    (dispatch_sectionalize eqls D fullDim max_segments_per_section geometry)

/-! ### Box lemmas -/

lemma pointLe_refl (p : Point) : pointLe p p = true := by
  induction p with
  | nil => rfl
  | cons a as ih => simp [pointLe, ih]

lemma pointLe_min_self (lo p : Point) :
    pointLe (List.zipWith min lo p) p = true := by
  induction lo generalizing p with
  | nil => simp [pointLe]
  | cons a as ih =>
    cases p with
    | nil => simp [pointLe]
    | cons b bs => simp [pointLe, ih, min_le_right]

lemma pointLe_max_self (hi p : Point) :
    pointLe p (List.zipWith max hi p) = true := by
  induction hi generalizing p with
  | nil => cases p <;> simp [pointLe]
  | cons a as ih =>
    cases p with
    | nil => simp [pointLe]
    | cons b bs => simp [pointLe, ih, le_max_right]

lemma pointLe_min_mono (lo x p : Point) (h : pointLe lo p = true) :
    pointLe (List.zipWith min lo x) p = true := by
  induction lo generalizing x p with
  | nil => simp [pointLe]
  | cons a as ih =>
    cases x with
    | nil => simp [pointLe]
    | cons c cs =>
      cases p with
      | nil => simp [pointLe]
      | cons b bs =>
        simp only [pointLe, Bool.and_eq_true, decide_eq_true_eq] at h ⊢
        exact ⟨le_trans (min_le_left a c) h.1, ih cs bs h.2⟩

lemma pointLe_max_mono (hi x p : Point) (h : pointLe p hi = true) :
    pointLe p (List.zipWith max hi x) = true := by
  induction hi generalizing x p with
  | nil =>
    cases p <;> simp [pointLe]
  | cons a as ih =>
    cases x with
    | nil =>
      cases p <;> simp [pointLe]
    | cons c cs =>
      cases p with
      | nil => simp [pointLe]
      | cons b bs =>
        simp only [pointLe, Bool.and_eq_true, decide_eq_true_eq] at h ⊢
        exact ⟨le_trans h.1 (le_max_left a c), ih cs bs h.2⟩

lemma inBox_combine_self (b : Option (Point × Point)) (p : Point) :
    inBox (combine b p) p = true := by
  cases b with
  | none => simp [combine, inBox, pointLe_refl]
  | some lohi =>
    obtain ⟨lo, hi⟩ := lohi
    simp [combine, inBox, pointLe_min_self, pointLe_max_self]

lemma inBox_combine_mono (b : Option (Point × Point)) (x p : Point)
    (h : inBox b p = true) : inBox (combine b x) p = true := by
  cases b with
  | none => simp [inBox] at h
  | some lohi =>
    obtain ⟨lo, hi⟩ := lohi
    simp only [combine, inBox, Bool.and_eq_true] at h ⊢
    exact ⟨pointLe_min_mono lo x p h.1, pointLe_max_mono hi x p h.2⟩

/-! ### Chains of index ranges -/

/-- The `[begin_index, end_index)` ranges of the listed sections tile the
interval `[a, b)` exactly, in order, each range non-empty. -/
def chainFrom : Int → Int → List Section → Prop
  | a, b, [] => a = b
  | a, b, s :: rest =>
      s.begin_index = a ∧ a < s.end_index ∧ chainFrom s.end_index b rest

/-- The right endpoint reached by a section list (0 for the empty list). -/
def chainEnd (l : List Section) : Int :=
  match l.getLast? with
  | none => 0
  | some s => s.end_index

lemma chainEnd_nil : chainEnd [] = 0 := rfl

lemma chainEnd_append_one (l : List Section) (s : Section) :
    chainEnd (l ++ [s]) = s.end_index := by
  induction l with
  | nil => rfl
  | cons t ts ih =>
    simp only [chainEnd, List.cons_append, List.getLast?_cons_cons] at ih ⊢
    cases ts <;> simp_all

lemma chainFrom_append_one (l : List Section) (s : Section) (a b : Int)
    (h : chainFrom a b l) (hb : s.begin_index = b) (hlt : b < s.end_index) :
    chainFrom a s.end_index (l ++ [s]) := by
  induction l generalizing a with
  | nil =>
    cases h
    exact ⟨hb, hlt, rfl⟩
  | cons t ts ih =>
    obtain ⟨h1, h2, h3⟩ := h
    exact ⟨h1, h2, ih _ h3⟩

lemma chainFrom_le (l : List Section) (a b : Int) (h : chainFrom a b l) :
    a ≤ b := by
  induction l generalizing a with
  | nil => exact le_of_eq h
  | cons t ts ih =>
    obtain ⟨_, h2, h3⟩ := h
    exact le_trans (le_of_lt h2) (ih _ h3)

lemma chainFrom_mem_bounds (l : List Section) (a b : Int)
    (h : chainFrom a b l) :
    ∀ s ∈ l, a ≤ s.begin_index ∧ s.begin_index < s.end_index ∧
      s.end_index ≤ b := by
  induction l generalizing a with
  | nil => intro s hs; cases hs
  | cons t ts ih =>
    obtain ⟨h1, h2, h3⟩ := h
    intro s hs
    cases hs with
    | head =>
      exact ⟨le_of_eq h1.symm, h1 ▸ h2, chainFrom_le ts _ _ h3⟩
    | tail _ hmem =>
      have := ih _ h3 s hmem
      omega

/-! ### The builder invariant -/

/-- The properties maintained for every section (finished or in
progress, relative to the view it was cut from). -/
structure SecInv (eqls : Coord → Coord → Bool)
    (D fullDim maxCount : Nat) (ring_index multi_index : Int)
    (view : List Point) (s : Section) : Prop where
  begin_nonneg : 0 ≤ s.begin_index
  count_eq : (s.count : Int) = s.end_index - s.begin_index
  count_pos : 1 ≤ s.count
  count_le : s.count ≤ maxCount + 1
  ring_eq : s.ring_index = ring_index
  multi_eq : s.multi_index = multi_index
  range_eq : s.range_count = view.length
  dup_eq : s.duplicate =
    seg_duplicate eqls D fullDim (view.getD s.begin_index.toNat [])
      (view.getD (s.begin_index.toNat + 1) [])
  seg_ok : ∀ i : Nat, s.begin_index ≤ (i : Int) → (i : Int) < s.end_index →
    seg_directions eqls D fullDim (view.getD i []) (view.getD (i + 1) [])
        = s.directions ∧
      inBox s.bounding_box (view.getD i []) = true ∧
      inBox s.bounding_box (view.getD (i + 1) []) = true

/-- The loop invariant of the section builder after the segments
`0 .. k-1` of `view` have been processed. -/
structure BuildInv (eqls : Coord → Coord → Bool)
    (D fullDim maxCount : Nat) (ring_index multi_index : Int)
    (view : List Point) (k : Nat) (st : BuilderState) : Prop where
  index_eq : st.index = k
  chain : chainFrom 0 (chainEnd st.sections) st.sections
  all_ok : ∀ s ∈ st.sections,
    SecInv eqls D fullDim maxCount ring_index multi_index view s
  empty_case : st.sec.count = 0 → chainEnd st.sections = (k : Int)
  cur_begin : 0 < st.sec.count → st.sec.begin_index = chainEnd st.sections
  cur_end : 0 < st.sec.count → st.sec.end_index = (k : Int)
  cur_ok : 0 < st.sec.count →
    SecInv eqls D fullDim maxCount ring_index multi_index view st.sec

/-! ### Shapes of one builder step -/

lemma sectionalize_step_flush (eqls : Coord → Coord → Bool)
    (D fullDim maxCount : Nat) (ring_index multi_index : Int)
    (range_count : Nat) (prev cur : Point) (st : BuilderState)
    (h1 : 0 < st.sec.count)
    (h2 : seg_directions eqls D fullDim prev cur ≠ st.sec.directions ∨
      maxCount < st.sec.count) :
    sectionalize_step eqls D fullDim maxCount ring_index multi_index
        range_count prev cur st =
      { sections := st.sections ++ [st.sec]
        sec :=
          { id := -1
            directions := seg_directions eqls D fullDim prev cur
            ring_index := ring_index
            multi_index := multi_index
            bounding_box := combine (combine none prev) cur
            begin_index := (st.index : Int)
            end_index := (st.index : Int) + 1
            count := 1
            range_count := range_count
            duplicate := seg_duplicate eqls D fullDim prev cur
            non_duplicate_index := st.ndi }
        index := st.index + 1
        ndi := if seg_duplicate eqls D fullDim prev cur then st.ndi
               else st.ndi + 1 } := by
  simp only [sectionalize_step, if_pos (And.intro h1 h2), sectionDefault]
  rfl

lemma sectionalize_step_append (eqls : Coord → Coord → Bool)
    (D fullDim maxCount : Nat) (ring_index multi_index : Int)
    (range_count : Nat) (prev cur : Point) (st : BuilderState)
    (h1 : 0 < st.sec.count)
    (h2 : seg_directions eqls D fullDim prev cur = st.sec.directions)
    (h3 : st.sec.count ≤ maxCount) :
    sectionalize_step eqls D fullDim maxCount ring_index multi_index
        range_count prev cur st =
      { sections := st.sections
        sec := { st.sec with
                  bounding_box := combine st.sec.bounding_box cur
                  end_index := (st.index : Int) + 1
                  count := st.sec.count + 1 }
        index := st.index + 1
        ndi := if seg_duplicate eqls D fullDim prev cur then st.ndi
               else st.ndi + 1 } := by
  have hcond : ¬ (0 < st.sec.count ∧
      (seg_directions eqls D fullDim prev cur ≠ st.sec.directions ∨
        maxCount < st.sec.count)) := by
    intro hc
    rcases hc.2 with hd | hm
    · exact hd h2
    · omega
  have hne : ¬ st.sec.count = 0 := by omega
  simp only [sectionalize_step, if_neg hcond, if_neg hne]

lemma sectionalize_step_start (eqls : Coord → Coord → Bool)
    (D fullDim maxCount : Nat) (ring_index multi_index : Int)
    (range_count : Nat) (prev cur : Point) (st : BuilderState)
    (h1 : st.sec.count = 0) :
    sectionalize_step eqls D fullDim maxCount ring_index multi_index
        range_count prev cur st =
      { sections := st.sections
        sec := { st.sec with
                  directions := seg_directions eqls D fullDim prev cur
                  ring_index := ring_index
                  multi_index := multi_index
                  bounding_box :=
                    combine (combine st.sec.bounding_box prev) cur
                  begin_index := (st.index : Int)
                  end_index := (st.index : Int) + 1
                  count := 1
                  range_count := range_count
                  duplicate := seg_duplicate eqls D fullDim prev cur
                  non_duplicate_index := st.ndi }
        index := st.index + 1
        ndi := if seg_duplicate eqls D fullDim prev cur then st.ndi
               else st.ndi + 1 } := by
  have hcond : ¬ (0 < st.sec.count ∧
      (seg_directions eqls D fullDim prev cur ≠ st.sec.directions ∨
        maxCount < st.sec.count)) := by
    intro hc
    omega
  simp only [sectionalize_step, if_neg hcond, if_pos h1]
  simp [h1]

/-! ### Step preservation of the invariant -/

lemma sectionalize_step_inv (eqls : Coord → Coord → Bool)
    (D fullDim maxCount : Nat) (ring_index multi_index : Int)
    (view : List Point) (k : Nat) (st : BuilderState)
    (h : BuildInv eqls D fullDim maxCount ring_index multi_index view k st) :
    BuildInv eqls D fullDim maxCount ring_index multi_index view (k + 1)
      (sectionalize_step eqls D fullDim maxCount ring_index multi_index
        view.length (view.getD k []) (view.getD (k + 1) []) st) := by
  have hik : st.index = k := h.index_eq
  subst hik
  rcases Nat.eq_zero_or_pos st.sec.count with h0 | hpos
  · -- the in-progress section is empty: start a fresh run, no flush
    rw [sectionalize_step_start _ _ _ _ _ _ _ _ _ _ h0]
    have hend : chainEnd st.sections = (st.index : Int) := h.empty_case h0
    refine
      { index_eq := rfl
        chain := h.chain
        all_ok := h.all_ok
        empty_case := fun hc => absurd hc Nat.one_ne_zero
        cur_begin := fun _ => hend.symm
        cur_end := fun _ => by show (st.index : Int) + 1 = _; push_cast; ring
        cur_ok := ?_ }
    intro _
    refine
      { begin_nonneg := by show (0 : Int) ≤ (st.index : Int); omega
        count_eq := by
          show ((1 : Nat) : Int) = (st.index : Int) + 1 - (st.index : Int)
          omega
        count_pos := le_refl 1
        count_le := by show 1 ≤ maxCount + 1; omega
        ring_eq := rfl
        multi_eq := rfl
        range_eq := rfl
        dup_eq := rfl
        seg_ok := ?_ }
    intro i hi1 hi2
    have hi1' : ((st.index : Nat) : Int) ≤ (i : Int) := hi1
    have hi2' : (i : Int) < (st.index : Int) + 1 := hi2
    have hieq : i = st.index := by omega
    subst hieq
    refine ⟨rfl, ?_, ?_⟩
    · show inBox (combine (combine st.sec.bounding_box
        (view.getD st.index [])) (view.getD (st.index + 1) []))
        (view.getD st.index []) = true
      exact inBox_combine_mono _ _ _ (inBox_combine_self _ _)
    · show inBox (combine (combine st.sec.bounding_box
        (view.getD st.index [])) (view.getD (st.index + 1) []))
        (view.getD (st.index + 1) []) = true
      exact inBox_combine_self _ _
  · by_cases hfl :
      seg_directions eqls D fullDim (view.getD st.index [])
          (view.getD (st.index + 1) [])
          ≠ st.sec.directions ∨ maxCount < st.sec.count
    · -- flush the in-progress section, then start a fresh run
      rw [sectionalize_step_flush _ _ _ _ _ _ _ _ _ _ hpos hfl]
      have hco := h.cur_ok hpos
      have hbeg : st.sec.begin_index = chainEnd st.sections :=
        h.cur_begin hpos
      have hend : st.sec.end_index = (st.index : Int) := h.cur_end hpos
      have hlt : chainEnd st.sections < st.sec.end_index := by
        have h1 := hco.count_eq
        have h2 := hco.count_pos
        omega
      have hchain :
          chainFrom 0 st.sec.end_index (st.sections ++ [st.sec]) :=
        chainFrom_append_one _ _ _ _ h.chain hbeg hlt
      refine
        { index_eq := rfl
          chain := by
            show chainFrom 0 (chainEnd (st.sections ++ [st.sec]))
              (st.sections ++ [st.sec])
            rw [chainEnd_append_one]
            exact hchain
          all_ok := ?_
          empty_case := fun hc => absurd hc Nat.one_ne_zero
          cur_begin := fun _ => by
            show (st.index : Int) = chainEnd (st.sections ++ [st.sec])
            rw [chainEnd_append_one, hend]
          cur_end := fun _ => by
            show (st.index : Int) + 1 = _
            push_cast
            ring
          cur_ok := ?_ }
      · intro s hs
        rcases List.mem_append.mp hs with hs | hs
        · exact h.all_ok s hs
        · rcases List.mem_singleton.mp hs with rfl
          exact hco
      · intro _
        refine
          { begin_nonneg := by show (0 : Int) ≤ (st.index : Int); omega
            count_eq := by
              show ((1 : Nat) : Int) = (st.index : Int) + 1 - (st.index : Int)
              omega
            count_pos := le_refl 1
            count_le := by show 1 ≤ maxCount + 1; omega
            ring_eq := rfl
            multi_eq := rfl
            range_eq := rfl
            dup_eq := rfl
            seg_ok := ?_ }
        intro i hi1 hi2
        have hi1' : ((st.index : Nat) : Int) ≤ (i : Int) := hi1
        have hi2' : (i : Int) < (st.index : Int) + 1 := hi2
        have hieq : i = st.index := by omega
        subst hieq
        refine ⟨rfl, ?_, ?_⟩
        · show inBox (combine (combine none (view.getD st.index []))
            (view.getD (st.index + 1) [])) (view.getD st.index []) = true
          exact inBox_combine_mono _ _ _ (inBox_combine_self _ _)
        · show inBox (combine (combine none (view.getD st.index []))
            (view.getD (st.index + 1) [])) (view.getD (st.index + 1) []) = true
          exact inBox_combine_self _ _
    · -- same direction and room left: append to the in-progress section
      push_neg at hfl
      rw [sectionalize_step_append _ _ _ _ _ _ _ _ _ _ hpos hfl.1
        (by omega)]
      have hco := h.cur_ok hpos
      have hend : st.sec.end_index = (st.index : Int) := h.cur_end hpos
      have hb0 : 0 ≤ st.sec.begin_index := hco.begin_nonneg
      have hcnt : (st.sec.count : Int) =
          st.sec.end_index - st.sec.begin_index := hco.count_eq
      refine
        { index_eq := rfl
          chain := h.chain
          all_ok := h.all_ok
          empty_case := fun hc => absurd hc (Nat.succ_ne_zero _)
          cur_begin := fun _ => h.cur_begin hpos
          cur_end := fun _ => by
            show (st.index : Int) + 1 = _
            push_cast
            ring
          cur_ok := ?_ }
      intro _
      refine
        { begin_nonneg := hb0
          count_eq := by
            show ((st.sec.count + 1 : Nat) : Int) =
              (st.index : Int) + 1 - st.sec.begin_index
            omega
          count_pos := by show 1 ≤ st.sec.count + 1; omega
          count_le := by show st.sec.count + 1 ≤ maxCount + 1; omega
          ring_eq := hco.ring_eq
          multi_eq := hco.multi_eq
          range_eq := hco.range_eq
          dup_eq := hco.dup_eq
          seg_ok := ?_ }
      intro i hi1 hi2
      have hi1' : st.sec.begin_index ≤ (i : Int) := hi1
      have hi2' : (i : Int) < (st.index : Int) + 1 := hi2
      rcases Nat.lt_or_ge i st.index with hcase | hcase
      · -- a segment already in the section before this step
        have hold := hco.seg_ok i hi1' (by omega)
        refine ⟨hold.1, ?_, ?_⟩
        · show inBox (combine st.sec.bounding_box
            (view.getD (st.index + 1) [])) (view.getD i []) = true
          exact inBox_combine_mono _ _ _ hold.2.1
        · show inBox (combine st.sec.bounding_box
            (view.getD (st.index + 1) [])) (view.getD (i + 1) []) = true
          exact inBox_combine_mono _ _ _ hold.2.2
      · -- the newly appended segment
        have hieq : i = st.index := by omega
        subst hieq
        have hk1 : 1 ≤ st.index := by
          have h2 := hco.count_pos
          omega
        have hprev := hco.seg_ok (st.index - 1) (by omega) (by omega)
        have hk1' : st.index - 1 + 1 = st.index := by omega
        rw [hk1'] at hprev
        refine ⟨by rw [hfl.1], ?_, ?_⟩
        · show inBox (combine st.sec.bounding_box
            (view.getD (st.index + 1) [])) (view.getD st.index []) = true
          exact inBox_combine_mono _ _ _ hprev.2.2
        · show inBox (combine st.sec.bounding_box
            (view.getD (st.index + 1) [])) (view.getD (st.index + 1) []) = true
          exact inBox_combine_self _ _

/-! ### The loop and the master soundness theorem -/

lemma sectionalize_fold_inv (eqls : Coord → Coord → Bool)
    (D fullDim maxCount : Nat) (ring_index multi_index : Int)
    (view : List Point) (segs : List (Point × Point)) :
    ∀ (k : Nat) (st : BuilderState),
      BuildInv eqls D fullDim maxCount ring_index multi_index view k st →
      (∀ j, j < segs.length →
        segs.getD j ([], []) =
          (view.getD (k + j) [], view.getD (k + j + 1) [])) →
      BuildInv eqls D fullDim maxCount ring_index multi_index view
        (k + segs.length)
        (segs.foldl
          (fun s pq =>
            sectionalize_step eqls D fullDim maxCount ring_index
              multi_index view.length pq.1 pq.2 s)
          st) := by
  induction segs with
  | nil =>
    intro k st hinv _
    simpa using hinv
  | cons pq rest ih =>
    intro k st hinv hseg
    obtain ⟨p, q⟩ := pq
    have h0 := hseg 0 (by simp)
    simp only [List.getD_cons_zero, Nat.add_zero, Prod.mk.injEq] at h0
    obtain ⟨hp, hq⟩ := h0
    subst hp
    subst hq
    have hstep := sectionalize_step_inv eqls D fullDim maxCount ring_index
      multi_index view k st hinv
    have hrest : ∀ j, j < rest.length →
        rest.getD j ([], []) =
          (view.getD (k + 1 + j) [], view.getD (k + 1 + j + 1) []) := by
      intro j hj
      have hj' := hseg (j + 1) (by simp; omega)
      have e1 : k + (j + 1) = k + 1 + j := by omega
      have e2 : k + (j + 1) + 1 = k + 1 + j + 1 := by omega
      simpa [e1, e2] using hj'
    have hres := ih (k + 1) _ hstep hrest
    have e : k + 1 + rest.length = k + (rest.length + 1) := by omega
    rw [e] at hres
    simpa using hres

lemma zip_tail_length (l : List Point) :
    (l.zip l.tail).length = l.length - 1 := by
  cases l with
  | nil => simp
  | cons a t => simp [List.length_zip]

lemma zip_tail_getD (l : List Point) :
    ∀ j, j < (l.zip l.tail).length →
      (l.zip l.tail).getD j ([], []) = (l.getD j [], l.getD (j + 1) []) := by
  induction l with
  | nil => intro j hj; simp at hj
  | cons a t ih =>
    cases t with
    | nil => intro j hj; simp at hj
    | cons b t2 =>
      intro j hj
      cases j with
      | zero => simp
      | succ j' =>
        have hj' : j' < ((b :: t2).zip (b :: t2).tail).length := by
          simp only [zip_tail_length] at hj ⊢
          simp at hj ⊢
          omega
        have := ih j' hj'
        simpa using this

/-- The master soundness theorem of the range sectionizer: the produced
sections tile the segment index space `[0, M)` of the closed view, and
every produced section satisfies the per-section invariant. -/
theorem sectionalize_range_inv (eqls : Coord → Coord → Bool)
    (D fullDim maxCount : Nat) (closure : ClosureSelector)
    (range : List Point) (ring_index multi_index : Int) :
    chainFrom 0 (((closeable_view closure range).length - 1 : Nat) : Int)
        (sectionalize_range eqls D fullDim maxCount closure range
          ring_index multi_index) ∧
      ∀ s ∈ sectionalize_range eqls D fullDim maxCount closure range
          ring_index multi_index,
        SecInv eqls D fullDim maxCount ring_index multi_index
          (closeable_view closure range) s := by
  by_cases h0 : (closeable_view closure range).length = 0
  · rw [sectionalize_range, if_pos h0]
    exact ⟨by rw [h0]; exact rfl, by intro s hs; cases hs⟩
  by_cases h1 : (closeable_view closure range).length = 1
  · rw [sectionalize_range, if_neg h0, if_pos h1]
    exact ⟨by rw [h1]; exact rfl, by intro s hs; cases hs⟩
  · rw [sectionalize_range, if_neg h0, if_neg h1]
    have hinit : BuildInv eqls D fullDim maxCount ring_index multi_index
        (closeable_view closure range) 0
        { sections := [], sec := sectionDefault D, index := 0, ndi := 0 } :=
      { index_eq := rfl
        chain := rfl
        all_ok := by intro s hs; cases hs
        empty_case := fun _ => rfl
        cur_begin := fun hc => absurd hc (by simp [sectionDefault])
        cur_end := fun hc => absurd hc (by simp [sectionDefault])
        cur_ok := fun hc => absurd hc (by simp [sectionDefault]) }
    have hpart := sectionalize_fold_inv eqls D fullDim maxCount ring_index
      multi_index (closeable_view closure range)
      ((closeable_view closure range).zip
        (closeable_view closure range).tail) 0 _ hinit
      (by
        intro j hj
        have := zip_tail_getD (closeable_view closure range) j hj
        simpa using this)
    rw [Nat.zero_add, zip_tail_length] at hpart
    have hguard : ¬ ((closeable_view closure range).length ≤
        ({ sections := [], sec := sectionDefault D, index := 0,
           ndi := 0 } : BuilderState).index) := by
      show ¬ ((closeable_view closure range).length ≤ 0)
      omega
    simp only [sectionalize_part, if_neg hguard, List.drop_zero,
      reduceIte]
    set stf := ((closeable_view closure range).zip
        (closeable_view closure range).tail).foldl
      (fun s pq =>
        sectionalize_step eqls D fullDim maxCount ring_index multi_index
          (closeable_view closure range).length pq.1 pq.2 s)
      { sections := [], sec := sectionDefault D, index := 0, ndi := 0 }
      with hstf
    by_cases hc : 0 < stf.sec.count
    · rw [if_pos hc]
      constructor
      · have hbeg := hpart.cur_begin hc
        have hend := hpart.cur_end hc
        have hco := hpart.cur_ok hc
        have hlt : chainEnd stf.sections < stf.sec.end_index := by
          have hce := hco.count_eq
          have hcp := hco.count_pos
          omega
        have := chainFrom_append_one _ _ _ _ hpart.chain hbeg hlt
        rw [hend] at this
        exact this
      · intro s hs
        rcases List.mem_append.mp hs with hs | hs
        · exact hpart.all_ok s hs
        · rcases List.mem_singleton.mp hs with rfl
          exact hpart.cur_ok hc
    · rw [if_neg hc]
      constructor
      · have hend := hpart.empty_case (by omega)
        rw [← hend]
        exact hpart.chain
      · exact hpart.all_ok

/-! ### Derived facts about chains and directions -/

lemma chainFrom_chain' (l : List Section) (a b : Int)
    (h : chainFrom a b l) :
    List.Chain' (fun s t => s.end_index = t.begin_index) l := by
  induction l generalizing a with
  | nil => exact List.chain'_nil
  | cons s rest ih =>
    obtain ⟨h1, h2, h3⟩ := h
    cases rest with
    | nil => simp
    | cons t ts =>
      rw [List.chain'_cons]
      exact ⟨h3.1.symm, ih _ h3⟩

lemma chainFrom_pairwise (l : List Section) (a b : Int)
    (h : chainFrom a b l) :
    List.Pairwise (fun s t => s.end_index ≤ t.begin_index) l := by
  induction l generalizing a with
  | nil => exact List.Pairwise.nil
  | cons s rest ih =>
    obtain ⟨h1, h2, h3⟩ := h
    refine List.Pairwise.cons ?_ (ih _ h3)
    intro t ht
    have := chainFrom_mem_bounds rest _ _ h3 t ht
    omega

lemma chainFrom_union (l : List Section) (a b : Int)
    (h : chainFrom a b l) (i : Int) :
    (∃ s ∈ l, s.begin_index ≤ i ∧ i < s.end_index) ↔ (a ≤ i ∧ i < b) := by
  induction l generalizing a with
  | nil =>
    have h' : a = b := h
    constructor
    · rintro ⟨s, hs, _⟩
      cases hs
    · rintro ⟨hi1, hi2⟩
      exfalso
      omega
  | cons s rest ih =>
    obtain ⟨h1, h2, h3⟩ := h
    have hrest := ih _ h3
    have hb := chainFrom_le _ _ _ h3
    constructor
    · rintro ⟨t, ht, hti⟩
      rcases List.mem_cons.mp ht with rfl | ht
      · omega
      · have := hrest.mp ⟨t, ht, hti⟩
        omega
    · rintro ⟨hi1, hi2⟩
      by_cases hcase : i < s.end_index
      · exact ⟨s, List.mem_cons_self _ _, by omega⟩
      · obtain ⟨t, ht, hti⟩ := hrest.mpr ⟨by omega, hi2⟩
        exact ⟨t, List.mem_cons_of_mem _ ht, hti⟩

lemma directionClass_cases (d : Coord) :
    directionClass d = -1 ∨ directionClass d = 0 ∨ directionClass d = 1 := by
  unfold directionClass
  split
  · simp
  · split <;> simp

lemma get_direction_loop_mem (D : Nat) (p q : Point) :
    ∀ v ∈ get_direction_loop D p q, v = -1 ∨ v = 0 ∨ v = 1 := by
  intro v hv
  simp only [get_direction_loop, List.mem_map] at hv
  obtain ⟨d, _, rfl⟩ := hv
  exact directionClass_cases _

lemma get_direction_loop_headD (D : Nat) (hD : 1 ≤ D) (p q : Point) :
    (get_direction_loop D p q).headD 0 =
      directionClass (q.getD 0 0 - p.getD 0 0) := by
  cases D with
  | zero => omega
  | succ n =>
    rw [get_direction_loop, List.range_succ_eq_map]
    simp

lemma get_direction_loop_ne_sentinel (D : Nat) (hD : 1 ≤ D)
    (p q : Point) :
    get_direction_loop D p q ≠ List.replicate D (-99) := by
  intro he
  have h1 := congrArg (fun l => l.headD 0) he
  simp only at h1
  rw [get_direction_loop_headD D hD] at h1
  cases D with
  | zero => omega
  | succ n =>
    rw [List.replicate_succ] at h1
    simp only [List.headD_cons] at h1
    rcases directionClass_cases (q.getD 0 0 - p.getD 0 0) with h | h | h <;>
      omega

lemma seg_directions_of_not_dup (eqls : Coord → Coord → Bool)
    (D fullDim : Nat) (p q : Point)
    (h : seg_duplicate eqls D fullDim p q = false) :
    seg_directions eqls D fullDim p q = get_direction_loop D p q := by
  rw [seg_directions, h]
  simp

lemma seg_directions_of_dup (eqls : Coord → Coord → Bool)
    (D fullDim : Nat) (p q : Point)
    (h : seg_duplicate eqls D fullDim p q = true) :
    seg_directions eqls D fullDim p q = List.replicate D (-99) := by
  rw [seg_directions, h]
  simp

lemma seg_dup_of_directions_sentinel (eqls : Coord → Coord → Bool)
    (D fullDim : Nat) (hD : 1 ≤ D) (p q : Point)
    (h : seg_directions eqls D fullDim p q = List.replicate D (-99)) :
    seg_duplicate eqls D fullDim p q = true := by
  by_contra hc
  rw [Bool.not_eq_true] at hc
  rw [seg_directions_of_not_dup _ _ _ _ _ hc] at h
  exact get_direction_loop_ne_sentinel D hD p q h

/-! ### Claim theorems -/

/-- A concrete closed square ring used to instantiate the theorems. -/
def sqRing : List Point := [[0, 0], [0, 10], [10, 10], [10, 0], [0, 0]]

/-- C1: for every ring or line range processed by the range sectionizer
(with M = view length − 1 segments of the closed view, i.e. N − 1 for an
already closed range and N when a closing point is appended), the
produced sections' `[begin_index, end_index)` ranges tile `[0, M)`:
consecutive in increasing index order (`chainFrom`, `Chain'`), pairwise
disjoint (`Pairwise`), and with union exactly `[0, M)`. -/
theorem sectionalize_partition (eqls : Coord → Coord → Bool)
    (D fullDim maxCount : Nat) (closure : ClosureSelector)
    (range : List Point) (ring_index multi_index : Int) :
    chainFrom 0 (((closeable_view closure range).length - 1 : Nat) : Int)
        (sectionalize_range eqls D fullDim maxCount closure range
          ring_index multi_index) ∧
      List.Chain' (fun s t => s.end_index = t.begin_index)
        (sectionalize_range eqls D fullDim maxCount closure range
          ring_index multi_index) ∧
      List.Pairwise (fun s t => s.end_index ≤ t.begin_index)
        (sectionalize_range eqls D fullDim maxCount closure range
          ring_index multi_index) ∧
      ∀ i : Int,
        (∃ s ∈ sectionalize_range eqls D fullDim maxCount closure range
            ring_index multi_index,
          s.begin_index ≤ i ∧ i < s.end_index) ↔
        (0 ≤ i ∧
          i < (((closeable_view closure range).length - 1 : Nat) : Int)) := by
  obtain ⟨hchain, _⟩ := sectionalize_range_inv eqls D fullDim maxCount
    closure range ring_index multi_index
  exact ⟨hchain, chainFrom_chain' _ _ _ hchain,
    chainFrom_pairwise _ _ _ hchain,
    fun i => chainFrom_union _ _ _ hchain i⟩

/-- C10: every section pushed into the output collection is non-empty:
`count ≥ 1`, `begin_index ≥ 0`, and `end_index - begin_index = count`. -/
theorem section_nonempty (eqls : Coord → Coord → Bool)
    (D fullDim maxCount : Nat) (closure : ClosureSelector)
    (range : List Point) (ring_index multi_index : Int) (s : Section)
    (hs : s ∈ sectionalize_range eqls D fullDim maxCount closure range
      ring_index multi_index) :
    1 ≤ s.count ∧ 0 ≤ s.begin_index ∧
      s.end_index - s.begin_index = (s.count : Int) := by
  obtain ⟨_, hall⟩ := sectionalize_range_inv eqls D fullDim maxCount
    closure range ring_index multi_index
  have h := hall s hs
  exact ⟨h.count_pos, h.begin_nonneg, h.count_eq.symm⟩

/-- Closed instance of `section_nonempty` at the first section of the
square ring. -/
theorem section_nonempty_witness :
    ((sectionalize_range math_equals 2 2 10 .closed sqRing (-1)
        (-1)).headD default
      ∈ sectionalize_range math_equals 2 2 10 .closed sqRing (-1) (-1)) ∧
    (1 ≤ ((sectionalize_range math_equals 2 2 10 .closed sqRing (-1)
        (-1)).headD default).count ∧
      0 ≤ ((sectionalize_range math_equals 2 2 10 .closed sqRing (-1)
        (-1)).headD default).begin_index ∧
      ((sectionalize_range math_equals 2 2 10 .closed sqRing (-1)
        (-1)).headD default).end_index -
        ((sectionalize_range math_equals 2 2 10 .closed sqRing (-1)
          (-1)).headD default).begin_index =
        (((sectionalize_range math_equals 2 2 10 .closed sqRing (-1)
          (-1)).headD default).count : Int)) :=
  ⟨by decide,
    section_nonempty math_equals 2 2 10 .closed sqRing (-1) (-1) _
      (by decide)⟩

/-- C3: no produced section has `count > maxCount + 1`; the builder
keeps the in-progress section (no flush) exactly when it is empty or
its stored direction vector matches the segment's and its count is
still at most `MaxCount`; and the bound is tight: a straight run of 12
collinear segments with the default `max_segments_per_section = 10`
produces a first section of count exactly 11. -/
theorem sectionalize_count_bound (eqls : Coord → Coord → Bool)
    (D fullDim maxCount : Nat) (closure : ClosureSelector)
    (range : List Point) (ring_index multi_index : Int) (s : Section)
    (hs : s ∈ sectionalize_range eqls D fullDim maxCount closure range
      ring_index multi_index) :
    s.count ≤ maxCount + 1 ∧
    (∀ (range_count : Nat) (prev cur : Point) (st : BuilderState),
      (st.sec.count = 0 ∨
        (seg_directions eqls D fullDim prev cur = st.sec.directions ∧
          st.sec.count ≤ maxCount)) →
      (sectionalize_step eqls D fullDim maxCount ring_index multi_index
          range_count prev cur st).sections = st.sections) ∧
    ((sectionalize_range math_equals 1 1 max_segments_per_section .closed
        ((List.range 13).map fun i => [(i : Int)]) (-1) (-1)).headD
          default).count = max_segments_per_section + 1 := by
  obtain ⟨_, hall⟩ := sectionalize_range_inv eqls D fullDim maxCount
    closure range ring_index multi_index
  refine ⟨(hall s hs).count_le, ?_, by decide⟩
  intro range_count prev cur st hcond
  rcases hcond with h0 | ⟨hdir, hcnt⟩
  · rw [sectionalize_step_start _ _ _ _ _ _ _ _ _ _ h0]
  · rcases Nat.eq_zero_or_pos st.sec.count with h0 | hpos
    · rw [sectionalize_step_start _ _ _ _ _ _ _ _ _ _ h0]
    · rw [sectionalize_step_append _ _ _ _ _ _ _ _ _ _ hpos hdir hcnt]

/-- Closed instance of `sectionalize_count_bound` at the first section
of a 13-point collinear closed line. -/
theorem sectionalize_count_bound_witness :
    (((sectionalize_range math_equals 1 1 10 .closed
          ((List.range 13).map fun i => [(i : Int)]) (-1) (-1)).headD
        default)
      ∈ sectionalize_range math_equals 1 1 10 .closed
          ((List.range 13).map fun i => [(i : Int)]) (-1) (-1)) ∧
    ((sectionalize_range math_equals 1 1 10 .closed
        ((List.range 13).map fun i => [(i : Int)]) (-1) (-1)).headD
          default).count ≤ 10 + 1 :=
  ⟨by decide,
    (sectionalize_count_bound math_equals 1 1 10 .closed
      ((List.range 13).map fun i => [(i : Int)]) (-1) (-1) _
      (by decide)).1⟩

/-- C2: within a section produced with `duplicate = false`, every
segment of `[begin_index, end_index)` has its exact per-dimension
direction-sign vector (`get_direction_loop`) equal to the section's
stored `directions`. -/
theorem sectionalize_direction_consistency (eqls : Coord → Coord → Bool)
    (D fullDim maxCount : Nat) (closure : ClosureSelector)
    (range : List Point) (ring_index multi_index : Int) (hD : 1 ≤ D)
    (s : Section)
    (hs : s ∈ sectionalize_range eqls D fullDim maxCount closure range
      ring_index multi_index)
    (hdup : s.duplicate = false) (i : Nat)
    (hi1 : s.begin_index ≤ (i : Int)) (hi2 : (i : Int) < s.end_index) :
    get_direction_loop D ((closeable_view closure range).getD i [])
        ((closeable_view closure range).getD (i + 1) []) = s.directions := by
  obtain ⟨_, hall⟩ := sectionalize_range_inv eqls D fullDim maxCount
    closure range ring_index multi_index
  have hsec := hall s hs
  have hdir := (hsec.seg_ok i hi1 hi2).1
  have hb0 : 0 ≤ s.begin_index := hsec.begin_nonneg
  have hblt : s.begin_index < s.end_index := by
    have h1 := hsec.count_eq
    have h2 := hsec.count_pos
    omega
  have hj : (s.begin_index.toNat : Int) = s.begin_index :=
    Int.toNat_of_nonneg hb0
  have hfirst := (hsec.seg_ok s.begin_index.toNat (by omega) (by omega)).1
  have hdupfirst : seg_duplicate eqls D fullDim
      ((closeable_view closure range).getD s.begin_index.toNat [])
      ((closeable_view closure range).getD (s.begin_index.toNat + 1) [])
      = false := by
    have hd := hsec.dup_eq
    rw [hdup] at hd
    exact hd.symm
  have hsdir : s.directions = get_direction_loop D
      ((closeable_view closure range).getD s.begin_index.toNat [])
      ((closeable_view closure range).getD (s.begin_index.toNat + 1) []) := by
    rw [← hfirst, seg_directions_of_not_dup _ _ _ _ _ hdupfirst]
  have hnd : seg_duplicate eqls D fullDim
      ((closeable_view closure range).getD i [])
      ((closeable_view closure range).getD (i + 1) []) = false := by
    by_contra hc
    rw [Bool.not_eq_false] at hc
    rw [seg_directions_of_dup _ _ _ _ _ hc, hsdir] at hdir
    exact get_direction_loop_ne_sentinel D hD _ _ hdir.symm
  rw [← seg_directions_of_not_dup _ _ _ _ _ hnd]
  exact hdir

/-- Closed instance of `sectionalize_direction_consistency` at segment 0
of the square ring's first section. -/
theorem sectionalize_direction_consistency_witness :
    (1 ≤ 2 ∧
      ((sectionalize_range math_equals 2 2 10 .closed sqRing (-1)
          (-1)).headD default
        ∈ sectionalize_range math_equals 2 2 10 .closed sqRing (-1) (-1)) ∧
      ((sectionalize_range math_equals 2 2 10 .closed sqRing (-1)
          (-1)).headD default).duplicate = false) ∧
    get_direction_loop 2 ((closeable_view .closed sqRing).getD 0 [])
        ((closeable_view .closed sqRing).getD 1 []) =
      ((sectionalize_range math_equals 2 2 10 .closed sqRing (-1)
          (-1)).headD default).directions :=
  ⟨⟨by decide, by decide, by decide⟩,
    sectionalize_direction_consistency math_equals 2 2 10 .closed sqRing
      (-1) (-1) (by decide) _ (by decide) (by decide) 0 (by decide)
      (by decide)⟩

/-- C8 as stated is false: a ring with a zero-length edge produces a
duplicate section whose stored `directions` entries are the sentinel
`-99`, outside `{-1, 0, 1}`. -/
theorem directions_range_cex :
    ¬ (∀ s ∈ sectionalize_range math_equals 2 2 10 .closed
          [[0, 0], [0, 0], [1, 0]] (-1) (-1),
        ∀ v ∈ s.directions, v = -1 ∨ v = 0 ∨ v = 1) := by decide

/-- C8 amended: every entry of a non-duplicate section's `directions`
is in `{-1, 0, 1}`; a duplicate section instead stores the sentinel
`-99` in every tracked dimension. -/
theorem directions_range_spec (eqls : Coord → Coord → Bool)
    (D fullDim maxCount : Nat) (closure : ClosureSelector)
    (range : List Point) (ring_index multi_index : Int) (s : Section)
    (hs : s ∈ sectionalize_range eqls D fullDim maxCount closure range
      ring_index multi_index) :
    (s.duplicate = false →
      ∀ v ∈ s.directions, v = -1 ∨ v = 0 ∨ v = 1) ∧
    (s.duplicate = true → s.directions = List.replicate D (-99)) := by
  obtain ⟨_, hall⟩ := sectionalize_range_inv eqls D fullDim maxCount
    closure range ring_index multi_index
  have hsec := hall s hs
  have hb0 : 0 ≤ s.begin_index := hsec.begin_nonneg
  have hblt : s.begin_index < s.end_index := by
    have h1 := hsec.count_eq
    have h2 := hsec.count_pos
    omega
  have hj : (s.begin_index.toNat : Int) = s.begin_index :=
    Int.toNat_of_nonneg hb0
  have hfirst := (hsec.seg_ok s.begin_index.toNat (by omega) (by omega)).1
  constructor
  · intro hdup
    have hdupfirst : seg_duplicate eqls D fullDim
        ((closeable_view closure range).getD s.begin_index.toNat [])
        ((closeable_view closure range).getD (s.begin_index.toNat + 1) [])
        = false := by
      have hd := hsec.dup_eq
      rw [hdup] at hd
      exact hd.symm
    intro v hv
    rw [← hfirst, seg_directions_of_not_dup _ _ _ _ _ hdupfirst] at hv
    exact get_direction_loop_mem D _ _ v hv
  · intro hdup
    have hdupfirst : seg_duplicate eqls D fullDim
        ((closeable_view closure range).getD s.begin_index.toNat [])
        ((closeable_view closure range).getD (s.begin_index.toNat + 1) [])
        = true := by
      have hd := hsec.dup_eq
      rw [hdup] at hd
      exact hd.symm
    rw [← hfirst, seg_directions_of_dup _ _ _ _ _ hdupfirst]

/-- Closed instance of `directions_range_spec` on the ring with a
zero-length edge: its first (duplicate) section stores the sentinel. -/
theorem directions_range_spec_witness :
    (((sectionalize_range math_equals 2 2 10 .closed
          [[0, 0], [0, 0], [1, 0]] (-1) (-1)).headD default)
        ∈ sectionalize_range math_equals 2 2 10 .closed
          [[0, 0], [0, 0], [1, 0]] (-1) (-1)) ∧
    (((sectionalize_range math_equals 2 2 10 .closed
        [[0, 0], [0, 0], [1, 0]] (-1) (-1)).headD default).duplicate = true
      → ((sectionalize_range math_equals 2 2 10 .closed
          [[0, 0], [0, 0], [1, 0]] (-1) (-1)).headD default).directions
        = List.replicate 2 (-99)) :=
  ⟨by decide,
    (directions_range_spec math_equals 2 2 10 .closed
      [[0, 0], [0, 0], [1, 0]] (-1) (-1) _ (by decide)).2⟩

/-- C9: every point of every segment assigned to a section (both the
segment's start point and its end point) lies in that section's
bounding box; a freshly constructed section starts at the
inverted/empty sentinel box. -/
theorem bounding_box_containment (eqls : Coord → Coord → Bool)
    (D fullDim maxCount : Nat) (closure : ClosureSelector)
    (range : List Point) (ring_index multi_index : Int) (s : Section)
    (hs : s ∈ sectionalize_range eqls D fullDim maxCount closure range
      ring_index multi_index)
    (i : Nat) (hi1 : s.begin_index ≤ (i : Int))
    (hi2 : (i : Int) < s.end_index) :
    inBox s.bounding_box ((closeable_view closure range).getD i [])
        = true ∧
      inBox s.bounding_box
        ((closeable_view closure range).getD (i + 1) []) = true ∧
      (sectionDefault D).bounding_box = none := by
  obtain ⟨_, hall⟩ := sectionalize_range_inv eqls D fullDim maxCount
    closure range ring_index multi_index
  have h := (hall s hs).seg_ok i hi1 hi2
  exact ⟨h.2.1, h.2.2, rfl⟩

/-- Closed instance of `bounding_box_containment` at segment 0 of the
square ring's first section. -/
theorem bounding_box_containment_witness :
    (((sectionalize_range math_equals 2 2 10 .closed sqRing (-1)
          (-1)).headD default)
        ∈ sectionalize_range math_equals 2 2 10 .closed sqRing (-1) (-1)) ∧
    inBox ((sectionalize_range math_equals 2 2 10 .closed sqRing (-1)
        (-1)).headD default).bounding_box
      ((closeable_view .closed sqRing).getD 0 []) = true :=
  ⟨by decide,
    (bounding_box_containment math_equals 2 2 10 .closed sqRing (-1)
      (-1) _ (by decide) 0 (by decide) (by decide)).1⟩

/-- C6 as stated is false: an open one-point ring is closed to a
two-point view and yields one duplicate section, not zero sections. -/
theorem degenerate_range_cex :
    (sectionalize_range math_equals 2 2 10 .open' [[0, 0]] (-1)
        (-1)).length = 1 ∧
      ((sectionalize_range math_equals 2 2 10 .open' [[0, 0]] (-1)
          (-1)).headD default).duplicate = true := by decide

/-- C6 amended: a range whose closed view has at most one point yields
zero sections, and this is not an error; in particular a 0- or 1-point
range under closed closure, and an empty open range.  (An open one-point
ring closes to a two-point view and instead yields one duplicate
section.) -/
theorem degenerate_range_spec (eqls : Coord → Coord → Bool)
    (D fullDim maxCount : Nat) (closure : ClosureSelector)
    (range : List Point) (ring_index multi_index : Int)
    (h : (closeable_view closure range).length ≤ 1) :
    sectionalize_range eqls D fullDim maxCount closure range ring_index
      multi_index = [] := by
  rcases Nat.le_one_iff_eq_zero_or_eq_one.mp h with h0 | h1
  · rw [sectionalize_range, if_pos h0]
  · rw [sectionalize_range, if_neg (by omega), if_pos h1]

/-- Closed instance of `degenerate_range_spec` on a one-point closed
range. -/
theorem degenerate_range_spec_witness :
    (closeable_view .closed [[7, 7]]).length ≤ 1 ∧
      sectionalize_range math_equals 2 2 10 .closed [[7, 7]] (-1) (-1)
        = [] :=
  ⟨by decide,
    degenerate_range_spec math_equals 2 2 10 .closed [[7, 7]] (-1) (-1)
      (by decide)⟩

lemma set_section_unique_ids_length (l : List Section) :
    (set_section_unique_ids l).length = l.length := by
  simp [set_section_unique_ids]

lemma set_section_unique_ids_map_id (l : List Section) :
    (set_section_unique_ids l).map Section.id =
      (List.range l.length).map Int.ofNat := by
  apply List.ext_getElem
  · simp [set_section_unique_ids]
  · intro i h1 h2
    simp [set_section_unique_ids, List.getElem_enum]

/-- C7: after `sectionalize` completes, the ids of the produced
collection are exactly `0, 1, …, count-1` in output order, and the
collection passed by the caller is cleared first, so its previous
contents (and ids) never influence the rebuilt result. -/
theorem sectionalize_ids (eqls : Coord → Coord → Bool) (D fullDim : Nat)
    (g : Geometry) (old old' : List Section) :
    (sectionalize eqls D fullDim g old).map Section.id =
      (List.range (sectionalize eqls D fullDim g old).length).map
        Int.ofNat ∧
      sectionalize eqls D fullDim g old =
        sectionalize eqls D fullDim g old' := by
  refine ⟨?_, rfl⟩
  rw [sectionalize, set_section_unique_ids_length,
    set_section_unique_ids_map_id]

/-- C4's last clause is false as stated: in a closed range of 13
coincident points every one of the 12 segments is a duplicate, yet the
run-length cap splits them, so the consecutive duplicate segments 10
and 11 do not end up in the same duplicate section. -/
theorem duplicate_same_section_cex :
    (∀ i : Nat, i < 12 →
      seg_duplicate math_equals 2 2
        ((closeable_view .closed
          (List.replicate 13 ([0, 0] : Point))).getD i [])
        ((closeable_view .closed
          (List.replicate 13 ([0, 0] : Point))).getD (i + 1) []) = true) ∧
    ¬ (∃ s ∈ sectionalize_range math_equals 2 2 10 .closed
          (List.replicate 13 ([0, 0] : Point)) (-1) (-1),
        s.begin_index ≤ (10 : Int) ∧ (11 : Int) < s.end_index) := by
  decide

/-- C4 amended: the duplicate detector runs only when the classified
dimension-0 sign is 0; a detected duplicate has every coordinate
difference equal to zero under the supplied tolerance equality across
the full point dimensionality; the duplicate overwrites the direction
vector with the sentinel `-99` (outside `{-1, 0, 1}`) in every tracked
dimension; a following non-duplicate segment therefore starts a fresh
section; and a following duplicate segment joins the same duplicate
section provided its count has not yet exceeded `MaxCount`. -/
theorem duplicate_detector_spec (eqls : Coord → Coord → Bool)
    (D fullDim maxCount : Nat) (ring_index multi_index : Int)
    (range_count : Nat) (p q : Point) (st : BuilderState) (hD : 1 ≤ D) :
    ((get_direction_loop D p q).headD 0 ≠ 0 →
      seg_duplicate eqls D fullDim p q = false) ∧
    (seg_duplicate eqls D fullDim p q = true →
      ∀ d, d < fullDim → eqls (q.getD d 0 - p.getD d 0) 0 = true) ∧
    (seg_duplicate eqls D fullDim p q = true →
      seg_directions eqls D fullDim p q = List.replicate D (-99) ∧
      ∀ v ∈ seg_directions eqls D fullDim p q,
        ¬ (v = -1 ∨ v = 0 ∨ v = 1)) ∧
    (0 < st.sec.count → st.sec.directions = List.replicate D (-99) →
      seg_duplicate eqls D fullDim p q = false →
      (sectionalize_step eqls D fullDim maxCount ring_index multi_index
          range_count p q st).sections = st.sections ++ [st.sec] ∧
      (sectionalize_step eqls D fullDim maxCount ring_index multi_index
          range_count p q st).sec.count = 1 ∧
      (sectionalize_step eqls D fullDim maxCount ring_index multi_index
          range_count p q st).sec.duplicate = false) ∧
    (0 < st.sec.count → st.sec.count ≤ maxCount →
      st.sec.directions = List.replicate D (-99) →
      seg_duplicate eqls D fullDim p q = true →
      (sectionalize_step eqls D fullDim maxCount ring_index multi_index
          range_count p q st).sections = st.sections ∧
      (sectionalize_step eqls D fullDim maxCount ring_index multi_index
          range_count p q st).sec.count = st.sec.count + 1 ∧
      (sectionalize_step eqls D fullDim maxCount ring_index multi_index
          range_count p q st).sec.duplicate = st.sec.duplicate) := by
  refine ⟨?_, ?_, ?_, ?_, ?_⟩
  · intro h
    have hb : ((get_direction_loop D p q).headD 0 == 0) = false := by
      simpa using h
    rw [seg_duplicate, hb, Bool.false_and]
  · intro h d hd
    simp only [seg_duplicate, check_duplicate_loop, Bool.and_eq_true,
      List.all_eq_true] at h
    exact h.2 d (List.mem_range.mpr hd)
  · intro h
    refine ⟨seg_directions_of_dup _ _ _ _ _ h, ?_⟩
    intro v hv
    rw [seg_directions_of_dup _ _ _ _ _ h] at hv
    have := (List.eq_of_mem_replicate hv)
    omega
  · intro hpos hsent hdup
    have hne : seg_directions eqls D fullDim p q ≠ st.sec.directions := by
      rw [hsent, seg_directions_of_not_dup _ _ _ _ _ hdup]
      exact get_direction_loop_ne_sentinel D hD p q
    rw [sectionalize_step_flush _ _ _ _ _ _ _ _ _ _ hpos (Or.inl hne)]
    exact ⟨rfl, rfl, hdup⟩
  · intro hpos hle hsent hdup
    have heq : seg_directions eqls D fullDim p q = st.sec.directions := by
      rw [hsent, seg_directions_of_dup _ _ _ _ _ hdup]
    rw [sectionalize_step_append _ _ _ _ _ _ _ _ _ _ hpos heq hle]
    exact ⟨rfl, rfl, rfl⟩

/-- A builder state holding an in-progress duplicate section of one
segment, used to instantiate `duplicate_detector_spec`. -/
def dupState : BuilderState :=
  { sections := []
    sec :=
      { id := -1
        directions := [-99, -99]
        ring_index := -1
        multi_index := -1
        bounding_box := some ([0, 0], [0, 0])
        begin_index := 0
        end_index := 1
        count := 1
        range_count := 3
        duplicate := true
        non_duplicate_index := 0 }
    index := 1
    ndi := 0 }

/-- Closed instance of `duplicate_detector_spec`: a second consecutive
duplicate segment joins the in-progress duplicate section of
`dupState`. -/
theorem duplicate_detector_spec_witness :
    (0 < dupState.sec.count ∧ dupState.sec.count ≤ 10 ∧
      dupState.sec.directions = List.replicate 2 (-99) ∧
      seg_duplicate math_equals 2 2 [0, 0] [0, 0] = true) ∧
    ((sectionalize_step math_equals 2 2 10 (-1) (-1) 3 [0, 0] [0, 0]
        dupState).sections = dupState.sections ∧
      (sectionalize_step math_equals 2 2 10 (-1) (-1) 3 [0, 0] [0, 0]
        dupState).sec.count = dupState.sec.count + 1 ∧
      (sectionalize_step math_equals 2 2 10 (-1) (-1) 3 [0, 0] [0, 0]
        dupState).sec.duplicate = dupState.sec.duplicate) :=
  ⟨⟨by decide, by decide, by decide, by decide⟩,
    (duplicate_detector_spec math_equals 2 2 10 (-1) (-1) 3 [0, 0]
      [0, 0] dupState (by decide)).2.2.2.2 (by decide) (by decide)
      (by decide) (by decide)⟩

/-- The dot product of two direction vectors. -/
def dotDirections (a b : List Int) : Int :=
  ((a.zip b).map fun xy => xy.1 * xy.2).sum

lemma get_direction_loop_two (a b c d : Coord) :
    get_direction_loop 2 [a, b] [c, d] =
      [directionClass (c - a), directionClass (d - b)] := rfl

lemma check_duplicate_loop_two (eqls : Coord → Coord → Bool)
    (a b c d : Coord) :
    check_duplicate_loop eqls 2 [a, b] [c, d] =
      (eqls (c - a) 0 && (eqls (d - b) 0 && true)) := rfl

/-- C5's perpendicularity clause is false as stated: the four direction
vectors of a box's sections are not *mutually* perpendicular — opposite
sides are antiparallel (dot product -1). -/
theorem box_perpendicular_cex :
    (sectionalize_box math_equals 2 10 ⟨0, 0, 1, 1⟩).length = 4 ∧
    ¬ (∀ s ∈ sectionalize_box math_equals 2 10 ⟨0, 0, 1, 1⟩,
        ∀ t ∈ sectionalize_box math_equals 2 10 ⟨0, 0, 1, 1⟩,
          s ≠ t → dotDirections s.directions t.directions = 0) := by
  decide

/-- C5 amended: a box with distinct corners is synthesized as the closed
5-point ring `ll, ul, ur, lr, ll` and routed through the range
sectionizer with `ring_index = -1`, yielding exactly 4 sections of
count 1 with directions `[0,1], [1,0], [0,-1], [-1,0]` in traversal
order; each pair of *consecutive* sections has perpendicular direction
vectors (opposite sections are antiparallel). -/
theorem sectionalize_box_spec (maxCount : Nat) (b : Box2)
    (hx : b.min_x < b.max_x) (hy : b.min_y < b.max_y) :
    sectionalize_box math_equals 2 maxCount b =
      sectionalize_range math_equals 2 2 maxCount .closed
        [[b.min_x, b.min_y], [b.min_x, b.max_y], [b.max_x, b.max_y],
          [b.max_x, b.min_y], [b.min_x, b.min_y]] (-1) (-1) ∧
    (sectionalize_box math_equals 2 maxCount b).length = 4 ∧
    (sectionalize_box math_equals 2 maxCount b).map Section.directions =
      [[0, 1], [1, 0], [0, -1], [-1, 0]] ∧
    (sectionalize_box math_equals 2 maxCount b).map Section.count =
      [1, 1, 1, 1] ∧
    (sectionalize_box math_equals 2 maxCount b).map Section.ring_index =
      [-1, -1, -1, -1] ∧
    (∀ j : Nat, j + 1 < 4 →
      dotDirections
          ((sectionalize_box math_equals 2 maxCount b).getD j
            default).directions
          ((sectionalize_box math_equals 2 maxCount b).getD (j + 1)
            default).directions = 0) := by
  obtain ⟨mx, my, Mx, My⟩ := b
  simp only at hx hy
  have c2 : directionClass (My - my) = 1 := by
    rw [directionClass, if_pos (by omega : (0 : Int) < My - my)]
  have c3 : directionClass (Mx - mx) = 1 := by
    rw [directionClass, if_pos (by omega : (0 : Int) < Mx - mx)]
  have c5 : directionClass (my - My) = -1 := by
    rw [directionClass, if_neg (by omega : ¬ ((0 : Int) < my - My)),
      if_pos (by omega : my - My < 0)]
  have c7 : directionClass (mx - Mx) = -1 := by
    rw [directionClass, if_neg (by omega : ¬ ((0 : Int) < mx - Mx)),
      if_pos (by omega : mx - Mx < 0)]
  have g1 : get_direction_loop 2 [mx, my] [mx, My] = [0, 1] := by
    rw [get_direction_loop_two, sub_self, c2]; rfl
  have g2 : get_direction_loop 2 [mx, My] [Mx, My] = [1, 0] := by
    rw [get_direction_loop_two, sub_self, c3]; rfl
  have g3 : get_direction_loop 2 [Mx, My] [Mx, my] = [0, -1] := by
    rw [get_direction_loop_two, sub_self, c5]; rfl
  have g4 : get_direction_loop 2 [Mx, my] [mx, my] = [-1, 0] := by
    rw [get_direction_loop_two, sub_self, c7]; rfl
  have d1 : seg_duplicate math_equals 2 2 [mx, my] [mx, My] = false := by
    rw [seg_duplicate, g1, check_duplicate_loop_two]
    have hne : (My - my == 0) = false := by
      rw [beq_eq_false_iff_ne]
      omega
    simp [math_equals, hne]
  have d2 : seg_duplicate math_equals 2 2 [mx, My] [Mx, My] = false := by
    rw [seg_duplicate, g2]
    simp
  have d3 : seg_duplicate math_equals 2 2 [Mx, My] [Mx, my] = false := by
    rw [seg_duplicate, g3, check_duplicate_loop_two]
    have hne : (my - My == 0) = false := by
      rw [beq_eq_false_iff_ne]
      omega
    simp [math_equals, hne]
  have d4 : seg_duplicate math_equals 2 2 [Mx, my] [mx, my] = false := by
    rw [seg_duplicate, g4]
    simp
  have sd1 : seg_directions math_equals 2 2 [mx, my] [mx, My]
      = [0, 1] := by
    rw [seg_directions_of_not_dup _ _ _ _ _ d1]; exact g1
  have sd2 : seg_directions math_equals 2 2 [mx, My] [Mx, My]
      = [1, 0] := by
    rw [seg_directions_of_not_dup _ _ _ _ _ d2]; exact g2
  have sd3 : seg_directions math_equals 2 2 [Mx, My] [Mx, my]
      = [0, -1] := by
    rw [seg_directions_of_not_dup _ _ _ _ _ d3]; exact g3
  have sd4 : seg_directions math_equals 2 2 [Mx, my] [mx, my]
      = [-1, 0] := by
    rw [seg_directions_of_not_dup _ _ _ _ _ d4]; exact g4
  have hsecs : sectionalize_box math_equals 2 maxCount ⟨mx, my, Mx, My⟩ =
      [{ id := -1, directions := [0, 1], ring_index := -1,
         multi_index := -1,
         bounding_box := combine (combine none [mx, my]) [mx, My],
         begin_index := 0, end_index := 1, count := 1, range_count := 5,
         duplicate := false, non_duplicate_index := 0 },
       { id := -1, directions := [1, 0], ring_index := -1,
         multi_index := -1,
         bounding_box := combine (combine none [mx, My]) [Mx, My],
         begin_index := 1, end_index := 2, count := 1, range_count := 5,
         duplicate := false, non_duplicate_index := 1 },
       { id := -1, directions := [0, -1], ring_index := -1,
         multi_index := -1,
         bounding_box := combine (combine none [Mx, My]) [Mx, my],
         begin_index := 2, end_index := 3, count := 1, range_count := 5,
         duplicate := false, non_duplicate_index := 2 },
       { id := -1, directions := [-1, 0], ring_index := -1,
         multi_index := -1,
         bounding_box := combine (combine none [Mx, my]) [mx, my],
         begin_index := 3, end_index := 4, count := 1, range_count := 5,
         duplicate := false, non_duplicate_index := 3 }] := by
    have e0 : sectionalize_box math_equals 2 maxCount ⟨mx, my, Mx, My⟩ =
        sectionalize_range math_equals 2 2 maxCount .closed
          [[mx, my], [mx, My], [Mx, My], [Mx, my], [mx, my]] (-1)
          (-1) := rfl
    rw [e0, sectionalize_range, if_neg (by simp [closeable_view]),
      if_neg (by simp [closeable_view])]
    simp only [sectionalize_part, closeable_view,
      if_neg (by simp : ¬ (([[mx, my], [mx, My], [Mx, My], [Mx, my],
        [mx, my]] : List Point).length ≤ 0)), List.drop_zero, reduceIte]
    have hzip : (([[mx, my], [mx, My], [Mx, My], [Mx, my],
        [mx, my]] : List Point).zip
          ([[mx, my], [mx, My], [Mx, My], [Mx, my],
            [mx, my]] : List Point).tail) =
      [([mx, my], [mx, My]), ([mx, My], [Mx, My]), ([Mx, My], [Mx, my]),
        ([Mx, my], [mx, my])] := rfl
    rw [hzip]
    rw [List.foldl_cons]
    simp only []
    rw [sectionalize_step_start _ _ _ _ _ _ _ _ _ _ rfl, sd1, d1]
    rw [List.foldl_cons]
    simp only []
    rw [sectionalize_step_flush _ _ _ _ _ _ _ _ _ _ (by norm_num)
      (Or.inl (by rw [sd2]; show ([1, 0] : List Int) ≠ [0, 1]; decide)),
      sd2, d2]
    rw [List.foldl_cons]
    simp only []
    rw [sectionalize_step_flush _ _ _ _ _ _ _ _ _ _ (by norm_num)
      (Or.inl (by rw [sd3]; show ([0, -1] : List Int) ≠ [1, 0]; decide)),
      sd3, d3]
    rw [List.foldl_cons]
    simp only []
    rw [sectionalize_step_flush _ _ _ _ _ _ _ _ _ _ (by norm_num)
      (Or.inl (by rw [sd4]; show ([-1, 0] : List Int) ≠ [0, -1]; decide)),
      sd4, d4]
    rw [List.foldl_nil]
    rfl
  refine ⟨rfl, ?_, ?_, ?_, ?_, ?_⟩
  · rw [hsecs]; rfl
  · rw [hsecs]; rfl
  · rw [hsecs]; rfl
  · rw [hsecs]; rfl
  · intro j hj
    have hj3 : j < 3 := by omega
    interval_cases j <;> (rw [hsecs]; rfl)

/-- Closed instance of `sectionalize_box_spec` at the unit-ish box
`(0,0)-(10,10)`. -/
theorem sectionalize_box_spec_witness :
    ((0 : Int) < 10 ∧ (0 : Int) < 10) ∧
    (sectionalize_box math_equals 2 10 ⟨0, 0, 10, 10⟩).map
        Section.directions = [[0, 1], [1, 0], [0, -1], [-1, 0]] :=
  ⟨⟨by decide, by decide⟩,
    (sectionalize_box_spec 10 ⟨0, 0, 10, 10⟩ (by decide)
      (by decide)).2.2.1⟩
